import Mathlib

set_option maxRecDepth 40000

/-!
# Verification of the github_heatmap calendar-grid engine

The program under verification renders a GitHub-style commit heatmap for one
calendar year.  Dates are values of chrono's `NaiveDate`; we embed a date as
its day number (an `Int` counting days since 1970-01-01, negative before).
The civil-calendar conversions `daysFromCivil` / `civilFromDays` are the
standard algorithms for the proleptic Gregorian calendar used by date
libraries; `weekday` is the day number mod 7 shifted so that Sunday = 0
(1970-01-01 was a Thursday, hence the offset 4).

The source functions of `src/main.rs` are translated below:
`adjust_start_and_end_dates`, `collect_commit_counts` (with the repository
walk abstracted to the list of commit dates it yields), `organize_weeks`,
`get_commit_color`, and the pure parts of `print_heatmap` (month-label
placement, month separators, per-cell styling).
-/

/-- Day number of a civil date (year, month, day): days since 1970-01-01.
Standard civil-from-days algorithm; `/` on `Int` is Euclidean division, which
agrees with floor division here because all divisors are positive. -/
def daysFromCivil (y m d : Int) : Int :=
  let y' := if m ≤ 2 then y - 1 else y
  let era := y' / 400
  let yoe := y' - era * 400
  let mp := if 2 < m then m - 3 else m + 9
  let doy := (153 * mp + 2) / 5 + d - 1
  let doe := yoe * 365 + yoe / 4 - yoe / 100 + doy
  era * 146097 + doe - 719468

/-- Civil date `(year, month, day)` of a day number; inverse of `daysFromCivil`. -/
def civilFromDays (n : Int) : Int × Int × Int :=
  let z := n + 719468
  let era := z / 146097
  let doe := z - era * 146097
  let yoe := (doe - doe / 1460 + doe / 36524 - doe / 146096) / 365
  let y := yoe + era * 400
  let doy := doe - (365 * yoe + yoe / 4 - yoe / 100)
  let mp := (5 * doy + 2) / 153
  let d := doy - (153 * mp + 2) / 5 + 1
  let m := if mp < 10 then mp + 3 else mp - 9
  (if m ≤ 2 then y + 1 else y, m, d)

/-- `date.month()` of chrono: month component (1..12) of a day number. -/
def monthOf (n : Int) : Int := (civilFromDays n).2.1

/-- `date.year()` of chrono: year component of a day number. -/
def yearOf (n : Int) : Int := (civilFromDays n).1

/-- `date.weekday()` with Sunday = 0, ..., Saturday = 6. -/
def weekday (n : Int) : Int := (n + 4) % 7

/-- The backward walk of `adjust_start_and_end_dates`:
`while adjusted_start_date.weekday() != Weekday::Sun { adjusted_start_date -= 1day }`.
The weekday takes values in 0..6, so the loop runs at most 6 times; fuel 7
is enough to run it to completion (proved below). -/
def adjustStartLoop : Nat → Int → Int
  | 0, d => d
  | fuel + 1, d => if weekday d ≠ 0 then adjustStartLoop fuel (d - 1) else d

/-- The forward walk of `adjust_start_and_end_dates`:
`while adjusted_end_date.weekday() != Weekday::Sat { adjusted_end_date += 1day }`. -/
def adjustEndLoop : Nat → Int → Int
  | 0, d => d
  | fuel + 1, d => if weekday d ≠ 6 then adjustEndLoop fuel (d + 1) else d

/-- `adjust_start_and_end_dates` from src/main.rs. -/
def adjust_start_and_end_dates (start_date end_date : Int) : Int × Int :=
  (adjustStartLoop 7 start_date, adjustEndLoop 7 end_date)

/-- `*commit_counts.entry(date).or_insert(0) += 1` on the association-list model
of `HashMap<NaiveDate, u32>`. -/
def bumpCount : List (Int × Nat) → Int → List (Int × Nat)
  | [], d => [(d, 1)]
  | (k, v) :: rest, d =>
    if k = d then (k, v + 1) :: rest else (k, v) :: bumpCount rest d

/-- `commit_counts.get(&date).unwrap_or(&0)`. -/
def lookupCount : List (Int × Nat) → Int → Nat
  | [], _ => 0
  | (k, v) :: rest, d => if k = d then v else lookupCount rest d

/-- `collect_commit_counts` from src/main.rs.  The git2 revwalk is external:
it is abstracted to the list of commit dates (already resolved to UTC calendar
days) that it yields, in walk order. -/
def collect_commit_counts (dates : List Int) (year : Int) : List (Int × Nat) :=
  dates.foldl (fun acc d => if yearOf d = year then bumpCount acc d else acc) []

/-- The inner `for _ in 0..DAYS_IN_WEEK` loop of `organize_weeks`: consumes 7
consecutive days starting at `date`, producing the week's slots (`some` for
days inside `[s, e]`, `none` otherwise), the week's month tag (month of the
first in-range day, 0 if none), and the date after the week.
Arguments: remaining iterations, current date, range `[s, e]`, accumulator. -/
def buildWeek : Nat → Int → Int → Int → Int → List (Option Int) × Int × Int
  | 0, date, _, _, wm => ([], wm, date)
  | k + 1, date, s, e, wm =>
    if s ≤ date ∧ date ≤ e then
      let wm' := if wm = 0 then monthOf date else wm
      let r := buildWeek k (date + 1) s e wm'
      (some date :: r.1, r.2)
    else
      let r := buildWeek k (date + 1) s e wm
      (none :: r.1, r.2)

/-- The outer `while date <= *adjusted_end_date` loop of `organize_weeks`,
with explicit fuel; each iteration appends one week row and one month tag. -/
def organizeLoop : Nat → Int → Int → Int → Int → List (List (Option Int)) × List Int
  | 0, _, _, _, _ => ([], [])
  | fuel + 1, date, aEnd, s, e =>
    if date ≤ aEnd then
      let w := buildWeek 7 date s e 0
      let r := organizeLoop fuel w.2.2 aEnd s e
      (w.1 :: r.1, w.2.1 :: r.2)
    else ([], [])

/-- `organize_weeks` from src/main.rs.  The loop advances `date` by 7 every
iteration, so `(adjusted_end_date + 1 - adjusted_start_date).toNat` units of
fuel are more than enough for the loop to run to its natural exit; the
`organizeLoop_neg`/`organizeLoop_pos` equations below recover the exact
while-loop behaviour. -/
def organize_weeks (adjusted_start_date adjusted_end_date start_date end_date : Int) :
    List (List (Option Int)) × List Int :=
  organizeLoop (adjusted_end_date + 1 - adjusted_start_date).toNat
    adjusted_start_date adjusted_end_date start_date end_date

/-- crossterm colors used by the program. -/
inductive Color
  | darkGrey
  | green
  | darkGreen
  | rgb (r g b : Nat)
  | white
deriving DecidableEq

/-- `get_commit_color` from src/main.rs: `match count { 0 => DarkGrey,
1 => Green, 2..=3 => DarkGreen, 4..=5 => Rgb(0,255,0), _ => White }`. -/
def get_commit_color (count : Nat) : Color :=
  if count = 0 then Color.darkGrey
  else if count = 1 then Color.green
  else if count ≤ 3 then Color.darkGreen
  else if count ≤ 5 then Color.rgb 0 255 0
  else Color.white

/-- `EMPTY_LABEL` from src/main.rs. -/
def EMPTY_LABEL : String := "  "

/-- The month-label loop of `print_heatmap`: scan `week_months` keeping
`last_month` (initially 0); a row gets a label iff its tag differs from
`last_month` and is nonzero, and labelling updates `last_month`.
`some m` models the formatted label, `none` the blank "  " placeholder. -/
def monthLabelsLoop : List Int → Int → List (Option Int)
  | [], _ => []
  | wm :: rest, last =>
    if wm ≠ last ∧ wm ≠ 0 then some wm :: monthLabelsLoop rest wm
    else none :: monthLabelsLoop rest last

/-- Month labels of `print_heatmap` (initial `last_month = 0`). -/
def month_labels (week_months : List Int) : List (Option Int) :=
  monthLabelsLoop week_months 0

/-- The separator decisions of `print_heatmap`: for each `i < len - 1` a `|`
separator is printed iff `week_months[i] != week_months[i+1] &&
week_months[i+1] != 0` (otherwise a space). -/
def separators (week_months : List Int) : List Bool :=
  (List.range (week_months.length - 1)).map fun i =>
    decide (week_months.getD i 0 ≠ week_months.getD (i + 1) 0 ∧
      week_months.getD (i + 1) 0 ≠ 0)

/-- One heatmap cell as printed by `print_heatmap`: content and background
color.  An in-year slot is classified through `get_commit_color` on its
commit count; a blank slot (`None`, outside the year) is printed as
`EMPTY_LABEL` on `DarkGrey` without consulting the counts. -/
def renderCell (slot : Option Int) (commit_counts : List (Int × Nat)) : String × Color :=
  match slot with
  | some date => (EMPTY_LABEL, get_commit_color (lookupCount commit_counts date))
  | none => (EMPTY_LABEL, Color.darkGrey)

/-- `NaiveDate::from_ymd_opt(year, 1, 1)` of `main`. -/
def janFirst (year : Int) : Int := daysFromCivil year 1 1

/-- `NaiveDate::from_ymd_opt(year, 12, 31)` of `main`. -/
def decLast (year : Int) : Int := daysFromCivil year 12 31

/-- The grid pipeline of `main`: adjust the year's endpoints, then organize
weeks; returns `(weeks, week_months)`. -/
def yearGrid (year : Int) : List (List (Option Int)) × List Int :=
  let s := janFirst year
  let e := decLast year
  let a := adjust_start_and_end_dates s e
  organize_weeks a.1 a.2 s e

/-! ## Proof-infrastructure definitions

Named intermediate quantities of the calendar algorithms and of the grid,
used to state and prove the theorems below, plus the specification-side
intensity buckets. -/

def qF (x : Int) : Int := x - x / 1460 + x / 36524 - x / 146096

def yoeF (x : Int) : Int := qF x / 365

def gH (t : Int) : Int := 365 * t + t / 4 - t / 100

def g4 (t : Int) : Int := 365 * t + t / 4 - t / 100 + t / 400

/-- Day-of-year (within the March-based shifted year) at which shifted month
index `j` begins: 0 for March, ..., 306 for January, 337 for February. -/
def mpStart (j : Int) : Int := (153 * j + 2) / 5

/-- The two checks at the boundaries of the year-of-era `t`:
`yoeF` maps both the first and the last day-of-era of year `t` to `t`. -/
def yoeBoundariesOk (t : Nat) : Bool :=
  decide (yoeF (g4 (t : Int)) = (t : Int)) &&
    decide (yoeF (g4 ((t : Int) + 1) - 1) = (t : Int))

/-- The month component of `civilFromDays` as a function of the day-of-era. -/
def monthOfDoe (doe : Int) : Int :=
  if (5 * (doe - gH (yoeF doe)) + 2) / 153 < 10 then
    (5 * (doe - gH (yoeF doe)) + 2) / 153 + 3
  else
    (5 * (doe - gH (yoeF doe)) + 2) / 153 - 9

/-- First day of month `m` of calendar year `Y` (proof infrastructure). -/
def monthStart (Y m : Int) : Int := daysFromCivil Y m 1

/-- First day of the month after month `m` of year `Y`. -/
def monthStartNext (Y m : Int) : Int :=
  if m = 12 then daysFromCivil (Y + 1) 1 1 else daysFromCivil Y (m + 1) 1

/-- Padded start of the year grid (closed form of the backward walk). -/
def aStart (Y : Int) : Int := janFirst Y - weekday (janFirst Y)

/-- Padded end of the year grid (closed form of the forward walk). -/
def aEnd (Y : Int) : Int := decLast Y + (6 - weekday (decLast Y))

/-- Total number of slot occurrences of day `n` across the grid. -/
def gridCount (n : Int) (weeks : List (List (Option Int))) : Nat :=
  (weeks.map (fun w => w.count (some n))).sum

/-- The `last_month` accumulator of the label loop after scanning a prefix. -/
def lastLabeled (week_months : List Int) : Int :=
  week_months.foldl (fun last wm => if wm ≠ last ∧ wm ≠ 0 then wm else last) 0

/-- Sum of the per-day counts in the map. -/
def sumVals (l : List (Int × Nat)) : Nat := (l.map Prod.snd).sum

/-- The five intensity buckets of the specification. -/
inductive IntensityBucket
  | zero
  | low
  | medium
  | high
  | veryHigh
deriving DecidableEq

/-- Modelled from the spec: `classify(count)` with the fixed thresholds
0 → Zero; 1 → Low; 2–3 → Medium; 4–5 → High; 6 and above → VeryHigh. -/
def classify (count : Nat) : IntensityBucket :=
  if count = 0 then IntensityBucket.zero
  else if count = 1 then IntensityBucket.low
  else if count ≤ 3 then IntensityBucket.medium
  else if count ≤ 5 then IntensityBucket.high
  else IntensityBucket.veryHigh

/-- The color associated to each bucket by the program. -/
def bucketColor : IntensityBucket → Color
  | IntensityBucket.zero => Color.darkGrey
  | IntensityBucket.low => Color.green
  | IntensityBucket.medium => Color.darkGreen
  | IntensityBucket.high => Color.rgb 0 255 0
  | IntensityBucket.veryHigh => Color.white

example : daysFromCivil 1970 1 1 = 0 := by decide
example : weekday (daysFromCivil 2021 1 1) = 5 := by decide
example : monthOf (daysFromCivil 2021 1 1) = 1 := by decide
example : yearOf (daysFromCivil 2021 1 1) = 2021 := by decide
example : civilFromDays (daysFromCivil 2024 2 29) = (2024, 2, 29) := by decide
example : (yearGrid 2021).1.length = 53 := by decide
example : (yearGrid 2021).2.length = 53 := by decide
example : (yearGrid 2021).1.headI =
    [none, none, none, none, none, some (daysFromCivil 2021 1 1),
      some (daysFromCivil 2021 1 2)] := by decide
example : (yearGrid 2021).2.headI = 1 := by decide

/-! ## Weekday and endpoint adjustment -/

theorem weekday_nonneg (n : Int) : 0 ≤ weekday n := by
  unfold weekday; omega

theorem weekday_lt (n : Int) : weekday n < 7 := by
  unfold weekday; omega

theorem weekday_pred (n : Int) (h : weekday n ≠ 0) : weekday (n - 1) = weekday n - 1 := by
  unfold weekday at *; omega

theorem weekday_succ (n : Int) (h : weekday n ≠ 6) : weekday (n + 1) = weekday n + 1 := by
  unfold weekday at *; omega

theorem adjustStartLoop_eq (fuel : Nat) (d : Int) (h : weekday d < fuel) :
    adjustStartLoop fuel d = d - weekday d := by
  induction fuel generalizing d with
  | zero => exact absurd h (by have := weekday_nonneg d; omega)
  | succ k ih =>
    unfold adjustStartLoop
    by_cases h0 : weekday d = 0
    · simp [h0]
    · have hw := weekday_pred d h0
      have hlt : weekday (d - 1) < k := by
        have := weekday_nonneg d; omega
      simp only [h0, ne_eq, not_false_iff, if_true, ih (d - 1) hlt, hw]
      ring

theorem adjustEndLoop_eq (fuel : Nat) (d : Int) (h : 6 - weekday d < fuel) :
    adjustEndLoop fuel d = d + (6 - weekday d) := by
  induction fuel generalizing d with
  | zero => exact absurd h (by have := weekday_lt d; omega)
  | succ k ih =>
    unfold adjustEndLoop
    by_cases h6 : weekday d = 6
    · simp [h6]
    · have hw := weekday_succ d h6
      have hlt : 6 - weekday (d + 1) < k := by
        have := weekday_lt d; omega
      simp only [h6, ne_eq, not_false_iff, if_true, ih (d + 1) hlt, hw]
      ring

theorem adjust_fst (s e : Int) :
    (adjust_start_and_end_dates s e).1 = s - weekday s := by
  unfold adjust_start_and_end_dates
  exact adjustStartLoop_eq 7 s (by have := weekday_lt s; omega)

theorem adjust_snd (s e : Int) :
    (adjust_start_and_end_dates s e).2 = e + (6 - weekday e) := by
  unfold adjust_start_and_end_dates
  exact adjustEndLoop_eq 7 e (by have := weekday_nonneg e; omega)

/-! ## Structure of `buildWeek` and `organizeLoop` -/

theorem buildWeek_len (k : Nat) (date s e wm : Int) :
    (buildWeek k date s e wm).1.length = k := by
  induction k generalizing date wm with
  | zero => rfl
  | succ n ih =>
    unfold buildWeek
    by_cases h : s ≤ date ∧ date ≤ e <;> simp [h, ih]

theorem buildWeek_next (k : Nat) (date s e wm : Int) :
    (buildWeek k date s e wm).2.2 = date + k := by
  induction k generalizing date wm with
  | zero => simp [buildWeek]
  | succ n ih =>
    unfold buildWeek
    by_cases h : s ≤ date ∧ date ≤ e <;> simp [h, ih] <;> push_cast <;> ring

theorem buildWeek_succ_pos (k : Nat) (date s e wm : Int) (h : s ≤ date ∧ date ≤ e) :
    buildWeek (k + 1) date s e wm =
      (some date :: (buildWeek k (date + 1) s e (if wm = 0 then monthOf date else wm)).1,
        (buildWeek k (date + 1) s e (if wm = 0 then monthOf date else wm)).2) := by
  conv_lhs => unfold buildWeek
  rw [if_pos h]

theorem buildWeek_succ_neg (k : Nat) (date s e wm : Int) (h : ¬(s ≤ date ∧ date ≤ e)) :
    buildWeek (k + 1) date s e wm =
      (none :: (buildWeek k (date + 1) s e wm).1, (buildWeek k (date + 1) s e wm).2) := by
  conv_lhs => unfold buildWeek
  rw [if_neg h]

theorem buildWeek_count (k : Nat) (date s e wm n : Int) :
    (buildWeek k date s e wm).1.count (some n) =
      if s ≤ n ∧ n ≤ e ∧ date ≤ n ∧ n < date + k then 1 else 0 := by
  induction k generalizing date wm with
  | zero =>
    unfold buildWeek
    simp only [List.count_nil]
    split <;> omega
  | succ m ih =>
    have hcast : ((m + 1 : Nat) : Int) = (m : Int) + 1 := by push_cast; ring
    by_cases h : s ≤ date ∧ date ≤ e
    · rw [buildWeek_succ_pos m date s e wm h, List.count_cons, ih]
      by_cases hn : date = n
      · subst hn
        simp only [beq_self_eq_true, if_pos rfl, hcast]
        split_ifs <;> omega
      · have hbeq : ((some date : Option Int) == some n) = false := by
          simp only [beq_eq_false_iff_ne, ne_eq, Option.some.injEq]
          exact hn
        simp only [hbeq, if_neg Bool.false_ne_true, hcast]
        split_ifs <;> omega
    · rw [buildWeek_succ_neg m date s e wm h, List.count_cons, ih]
      have hbeq : ((none : Option Int) == some n) = false := rfl
      simp only [hbeq, if_neg Bool.false_ne_true, hcast]
      split_ifs <;> omega

theorem buildWeek_slot (k : Nat) (date s e wm : Int) (j : Nat) (hj : j < k) :
    (buildWeek k date s e wm).1.getD j none =
      if s ≤ date + j ∧ date + j ≤ e then some (date + j) else none := by
  induction k generalizing date wm j with
  | zero => omega
  | succ m ih =>
    by_cases h : s ≤ date ∧ date ≤ e
    · rw [buildWeek_succ_pos m date s e wm h]
      cases j with
      | zero =>
        simpa using h
      | succ i =>
        rw [List.getD_cons_succ, ih (date + 1) _ i (by omega)]
        have harg : date + 1 + (i : Int) = date + ((i + 1 : Nat) : Int) := by push_cast; ring
        rw [harg]
    · rw [buildWeek_succ_neg m date s e wm h]
      cases j with
      | zero =>
        have h0 : ¬(s ≤ date + ((0 : Nat) : Int) ∧ date + ((0 : Nat) : Int) ≤ e) := by
          push_cast; omega
        simp only [List.getD_cons_zero, if_neg h0]
      | succ i =>
        rw [List.getD_cons_succ, ih (date + 1) wm i (by omega)]
        have harg : date + 1 + (i : Int) = date + ((i + 1 : Nat) : Int) := by push_cast; ring
        rw [harg]

theorem buildWeek_wm_stays (k : Nat) (date s e wm : Int) (h : wm ≠ 0) :
    (buildWeek k date s e wm).2.1 = wm := by
  induction k generalizing date with
  | zero => rfl
  | succ m ih =>
    by_cases hv : s ≤ date ∧ date ≤ e
    · rw [buildWeek_succ_pos m date s e wm hv]
      simp only [if_neg h]
      exact ih (date + 1)
    · rw [buildWeek_succ_neg m date s e wm hv]
      exact ih (date + 1)

theorem buildWeek_wm_zero (k : Nat) (date s e : Int)
    (hpos : ∀ n, s ≤ n → n ≤ e → 0 < monthOf n) :
    (buildWeek k date s e 0).2.1 =
      if max date s < date + k ∧ max date s ≤ e then monthOf (max date s) else 0 := by
  induction k generalizing date with
  | zero =>
    have : ¬(max date s < date + ((0 : Nat) : Int) ∧ max date s ≤ e) := by
      have := le_max_left date s; push_cast; omega
    rw [if_neg this]
    rfl
  | succ m ih =>
    by_cases hv : s ≤ date ∧ date ≤ e
    · rw [buildWeek_succ_pos m date s e 0 hv]
      simp only [eq_self_iff_true, if_true]
      have hmp : monthOf date ≠ 0 := by
        have := hpos date hv.1 hv.2; omega
      rw [buildWeek_wm_stays m (date + 1) s e (monthOf date) hmp]
      have hmax : max date s = date := max_eq_left hv.1
      have hcond : max date s < date + ((m + 1 : Nat) : Int) ∧ max date s ≤ e := by
        rw [hmax]; push_cast; omega
      rw [if_pos hcond, hmax]
    · rw [buildWeek_succ_neg m date s e 0 hv]
      rw [ih (date + 1)]
      rcases not_and_or.mp hv with hlt | hgt
      · push_neg at hlt
        have h1 : max date s = s := max_eq_right (le_of_lt hlt)
        have h2 : max (date + 1) s = s := max_eq_right (by omega)
        rw [h1, h2]
        by_cases hc : s < date + 1 + (m : Int) ∧ s ≤ e
        · rw [if_pos hc, if_pos (by push_cast; omega)]
        · rw [if_neg hc, if_neg (by push_cast at hc ⊢; omega)]
      · push_neg at hgt
        have h1 : e < max date s := lt_of_lt_of_le hgt (le_max_left date s)
        have h2 : e < max (date + 1) s := by
          have := le_max_left (date + 1) s; omega
        rw [if_neg (by omega), if_neg (by omega)]

theorem organizeLoop_pos (fuel : Nat) (date aEnd s e : Int) (h : date ≤ aEnd) :
    organizeLoop (fuel + 1) date aEnd s e =
      ((buildWeek 7 date s e 0).1 :: (organizeLoop fuel (date + 7) aEnd s e).1,
        (buildWeek 7 date s e 0).2.1 :: (organizeLoop fuel (date + 7) aEnd s e).2) := by
  conv_lhs => unfold organizeLoop
  rw [if_pos h]
  dsimp only
  rw [buildWeek_next]
  norm_num

theorem organizeLoop_neg (fuel : Nat) (date aEnd s e : Int) (h : aEnd < date) :
    organizeLoop fuel date aEnd s e = ([], []) := by
  cases fuel with
  | zero => rfl
  | succ m =>
    unfold organizeLoop
    rw [if_neg (by omega)]

theorem organizeLoop_len_eq (fuel : Nat) (date aEnd s e : Int) :
    (organizeLoop fuel date aEnd s e).1.length =
      (organizeLoop fuel date aEnd s e).2.length := by
  induction fuel generalizing date with
  | zero => rfl
  | succ m ih =>
    by_cases h : date ≤ aEnd
    · rw [organizeLoop_pos m date aEnd s e h]
      simp only [List.length_cons, ih]
    · rw [organizeLoop_neg (m + 1) date aEnd s e (by omega)]
      rfl

theorem organizeLoop_rows7 (fuel : Nat) (date aEnd s e : Int) :
    ∀ w ∈ (organizeLoop fuel date aEnd s e).1, w.length = 7 := by
  induction fuel generalizing date with
  | zero => intro w hw; simp [organizeLoop] at hw
  | succ m ih =>
    intro w hw
    by_cases h : date ≤ aEnd
    · rw [organizeLoop_pos m date aEnd s e h] at hw
      rcases List.mem_cons.mp hw with h1 | h2
      · rw [h1]; exact buildWeek_len 7 date s e 0
      · exact ih (date + 7) w h2
    · rw [organizeLoop_neg (m + 1) date aEnd s e (by omega)] at hw
      simp at hw

theorem organizeLoop_length (fuel : Nat) (date aEnd s e : Int)
    (hfuel : aEnd + 1 - date ≤ 7 * fuel) (halign : (aEnd + 1 - date) % 7 = 0)
    (hle : date ≤ aEnd + 1) :
    ((organizeLoop fuel date aEnd s e).1.length : Int) = (aEnd + 1 - date) / 7 := by
  induction fuel generalizing date with
  | zero =>
    rw [organizeLoop_neg 0 date aEnd s e (by omega)]
    simp only [List.length_nil, Nat.cast_zero]
    omega
  | succ m ih =>
    by_cases h : date ≤ aEnd
    · rw [organizeLoop_pos m date aEnd s e h]
      have hge : 7 ≤ aEnd + 1 - date := by omega
      have := ih (date + 7) (by omega) (by omega) (by omega)
      simp only [List.length_cons]
      push_cast
      omega
    · rw [organizeLoop_neg (m + 1) date aEnd s e (by omega)]
      simp only [List.length_nil, Nat.cast_zero]
      omega

theorem organizeLoop_count (fuel : Nat) (date aEnd s e n : Int)
    (hfuel : aEnd + 1 - date ≤ 7 * fuel) (halign : (aEnd + 1 - date) % 7 = 0) :
    ((organizeLoop fuel date aEnd s e).1.map (fun w => w.count (some n))).sum =
      if s ≤ n ∧ n ≤ e ∧ date ≤ n ∧ n ≤ aEnd then 1 else 0 := by
  induction fuel generalizing date with
  | zero =>
    rw [organizeLoop_neg 0 date aEnd s e (by omega)]
    simp only [List.map_nil, List.sum_nil]
    split_ifs <;> omega
  | succ m ih =>
    by_cases h : date ≤ aEnd
    · rw [organizeLoop_pos m date aEnd s e h]
      have hge : 7 ≤ aEnd + 1 - date := by omega
      rw [List.map_cons, List.sum_cons, ih (date + 7) (by omega) (by omega),
        buildWeek_count]
      have hc : ((7 : Nat) : Int) = 7 := by norm_num
      rw [hc]
      split_ifs <;> omega
    · rw [organizeLoop_neg (m + 1) date aEnd s e (by omega)]
      simp only [List.map_nil, List.sum_nil]
      split_ifs <;> omega

theorem organizeLoop_row (fuel : Nat) (date aEnd s e : Int) (i : Nat)
    (hi : i < (organizeLoop fuel date aEnd s e).1.length) :
    (organizeLoop fuel date aEnd s e).1.getD i [] =
      (buildWeek 7 (date + 7 * i) s e 0).1 := by
  induction fuel generalizing date i with
  | zero => simp [organizeLoop] at hi
  | succ m ih =>
    by_cases h : date ≤ aEnd
    · rw [organizeLoop_pos m date aEnd s e h] at hi ⊢
      cases i with
      | zero => norm_num
      | succ j =>
        simp only [List.length_cons, Nat.succ_lt_succ_iff] at hi
        rw [List.getD_cons_succ, ih (date + 7) j hi]
        have : date + 7 + 7 * (j : Int) = date + 7 * ((j + 1 : Nat) : Int) := by
          push_cast; ring
        rw [this]
    · rw [organizeLoop_neg (m + 1) date aEnd s e (by omega)] at hi
      simp at hi

theorem organizeLoop_wm (fuel : Nat) (date aEnd s e : Int) (i : Nat)
    (hi : i < (organizeLoop fuel date aEnd s e).2.length) :
    (organizeLoop fuel date aEnd s e).2.getD i 0 =
      (buildWeek 7 (date + 7 * i) s e 0).2.1 := by
  induction fuel generalizing date i with
  | zero => simp [organizeLoop] at hi
  | succ m ih =>
    by_cases h : date ≤ aEnd
    · rw [organizeLoop_pos m date aEnd s e h] at hi ⊢
      cases i with
      | zero => norm_num
      | succ j =>
        simp only [List.length_cons, Nat.succ_lt_succ_iff] at hi
        rw [List.getD_cons_succ, ih (date + 7) j hi]
        have : date + 7 + 7 * (j : Int) = date + 7 * ((j + 1 : Nat) : Int) := by
          push_cast; ring
        rw [this]
    · rw [organizeLoop_neg (m + 1) date aEnd s e (by omega)] at hi
      simp at hi

/-! ## Civil-calendar arithmetic

Correctness of the inverse conversion `civilFromDays` on the days it is
actually applied to.  `qF`, `yoeF`, `gH`, `g4` name the intermediate
quantities of the algorithm: `yoeF doe` is the year-of-era computed from a
day-of-era, `gH t` the algorithm's day-of-era of the start of year-of-era
`t` (valid for `t ≤ 399`), and `g4 t` the same including the 400-year leap
term, so that `g4` is correct at `t = 400` as well. -/

theorem gH_eq_g4 (t : Int) (h0 : 0 ≤ t) (h1 : t ≤ 399) : gH t = g4 t := by
  unfold gH g4; omega

theorem g4_nonneg (t : Int) (h0 : 0 ≤ t) : 0 ≤ g4 t := by
  unfold g4; omega

theorem g4_mono (a b : Int) (h : a ≤ b) (h0 : 0 ≤ a) : g4 a ≤ g4 b := by
  unfold g4; omega

theorem g4_gap (t : Int) (h0 : 0 ≤ t) :
    g4 t + 365 ≤ g4 (t + 1) ∧ g4 (t + 1) ≤ g4 t + 366 := by
  have h4 : t / 100 = t / 4 / 25 := by omega
  have h400 : t / 400 = t / 100 / 4 := by omega
  have h4' : (t + 1) / 100 = (t + 1) / 4 / 25 := by omega
  have h400' : (t + 1) / 400 = (t + 1) / 100 / 4 := by omega
  unfold g4
  omega

theorem g4_le_top (t : Int) (h0 : 0 ≤ t) (h1 : t ≤ 399) : g4 t ≤ 145731 := by
  have := g4_mono t 399 h1 h0
  have : g4 399 = 145731 := by norm_num [g4]
  omega

theorem qF_mono (a b : Int) (h : a ≤ b) (h0 : 0 ≤ a) : qF a ≤ qF b := by
  have e1 : a / 146096 = a / 36524 / 4 := by omega
  have e2 : b / 146096 = b / 36524 / 4 := by omega
  have m1 : a - a / 1460 ≤ b - b / 1460 := by omega
  have m2 : a / 36524 ≤ b / 36524 := by omega
  have m3 : a / 36524 - a / 36524 / 4 ≤ b / 36524 - b / 36524 / 4 := by
    generalize a / 36524 = u at m2 ⊢
    generalize b / 36524 = v at m2 ⊢
    omega
  unfold qF
  omega

theorem yoeF_mono (a b : Int) (h : a ≤ b) (h0 : 0 ≤ a) : yoeF a ≤ yoeF b := by
  have := qF_mono a b h h0
  unfold yoeF
  omega

theorem yoeBoundaries : (List.range 400).all yoeBoundariesOk = true := by decide

theorem yoe_boundary (t : Int) (h0 : 0 ≤ t) (h1 : t ≤ 399) :
    yoeF (g4 t) = t ∧ yoeF (g4 (t + 1) - 1) = t := by
  have hall := yoeBoundaries
  rw [List.all_eq_true] at hall
  have hmem : t.toNat ∈ List.range 400 := by
    rw [List.mem_range]; omega
  have h := hall _ hmem
  rw [yoeBoundariesOk, Bool.and_eq_true, decide_eq_true_iff, decide_eq_true_iff] at h
  have hcast : ((t.toNat : Nat) : Int) = t := by omega
  rw [hcast] at h
  exact h

theorem yoe_interval (t doe : Int) (h0 : 0 ≤ t) (h1 : t ≤ 399)
    (hl : g4 t ≤ doe) (hr : doe < g4 (t + 1)) : yoeF doe = t := by
  have hb := yoe_boundary t h0 h1
  have hg0 : 0 ≤ g4 t := g4_nonneg t h0
  have m1 : yoeF (g4 t) ≤ yoeF doe := yoeF_mono _ _ hl hg0
  have m2 : yoeF doe ≤ yoeF (g4 (t + 1) - 1) := yoeF_mono _ _ (by omega) (by omega)
  omega

theorem monthOf_eq_doe (n : Int) : monthOf n = monthOfDoe ((n + 719468) % 146097) := by
  unfold monthOf civilFromDays monthOfDoe yoeF qF gH
  dsimp only
  have h : n + 719468 - (n + 719468) / 146097 * 146097 = (n + 719468) % 146097 := by
    omega
  rw [h]

theorem monthOfDoe_eq (doe t j : Int) (h0 : 0 ≤ t) (h1 : t ≤ 399)
    (hj0 : 0 ≤ j) (hj1 : j ≤ 11)
    (hl : g4 t + mpStart j ≤ doe) (hr1 : doe < g4 t + mpStart (j + 1))
    (hr2 : doe < g4 (t + 1)) :
    monthOfDoe doe = if j < 10 then j + 3 else j - 9 := by
  have hyoe : yoeF doe = t := by
    apply yoe_interval t doe h0 h1 _ hr2
    have : 0 ≤ mpStart j := by unfold mpStart; omega
    omega
  have hgH : gH t = g4 t := gH_eq_g4 t h0 h1
  unfold monthOfDoe
  rw [hyoe, hgH]
  have hmp : (5 * (doe - g4 t) + 2) / 153 = j := by
    unfold mpStart at hl hr1
    omega
  rw [hmp]

theorem monthStart_decomp (Y m : Int) (h1 : 1 ≤ m) (h2 : m ≤ 12) :
    monthStart Y m + 719468 =
      (if m ≤ 2 then Y - 1 else Y) / 400 * 146097 +
        g4 ((if m ≤ 2 then Y - 1 else Y) % 400) +
        mpStart (if 2 < m then m - 3 else m + 9) := by
  unfold monthStart daysFromCivil g4 mpStart
  dsimp only
  by_cases h : m ≤ 2
  · rw [if_pos h, if_neg (by omega : ¬2 < m)]
    omega
  · rw [if_neg h, if_pos (by omega : 2 < m)]
    omega

theorem feb_mar_boundary (Y : Int) :
    Y / 400 * 146097 + g4 (Y % 400) = (Y - 1) / 400 * 146097 + g4 ((Y - 1) % 400 + 1) := by
  have c0 : g4 0 = 0 := by norm_num [g4]
  have c400 : g4 400 = 146097 := by norm_num [g4]
  by_cases h : (Y - 1) % 400 = 399
  · have h1 : Y % 400 = 0 := by omega
    have h2 : (Y - 1) % 400 + 1 = 400 := by omega
    rw [h1, h2, c0, c400]
    omega
  · have h1 : Y % 400 = (Y - 1) % 400 + 1 := by omega
    rw [h1]
    omega

theorem monthOf_window (n t j : Int) (h0 : 0 ≤ t) (h1 : t ≤ 399)
    (hj0 : 0 ≤ j) (hj1 : j ≤ 11) (era : Int)
    (hl : era * 146097 + g4 t + mpStart j ≤ n + 719468)
    (hr1 : n + 719468 < era * 146097 + g4 t + mpStart (j + 1))
    (hr2 : n + 719468 < era * 146097 + g4 (t + 1)) :
    monthOf n = if j < 10 then j + 3 else j - 9 := by
  have htop := g4_le_top t h0 h1
  have h0g := g4_nonneg t h0
  have hgap := g4_gap t h0
  have hms0 : 0 ≤ mpStart j := by unfold mpStart; omega
  have hms1 : mpStart (j + 1) ≤ 367 := by unfold mpStart at hr1 ⊢; omega
  rw [monthOf_eq_doe]
  exact monthOfDoe_eq _ t j h0 h1 hj0 hj1 (by omega) (by omega) (by omega)

theorem monthOf_between (n yc j : Int) (hj0 : 0 ≤ j) (hj1 : j ≤ 10)
    (hl : yc / 400 * 146097 + g4 (yc % 400) + mpStart j ≤ n + 719468)
    (hr : n + 719468 < yc / 400 * 146097 + g4 (yc % 400) + mpStart (j + 1)) :
    monthOf n = if j < 10 then j + 3 else j - 9 := by
  have hgap := g4_gap (yc % 400) (by omega)
  have hms : mpStart (j + 1) ≤ 337 := by unfold mpStart; omega
  exact monthOf_window n (yc % 400) j (by omega) (by omega) hj0 (by omega) (yc / 400)
    hl hr (by omega)

theorem monthOf_feb (n yc : Int)
    (hl : yc / 400 * 146097 + g4 (yc % 400) + mpStart 11 ≤ n + 719468)
    (hr : n + 719468 < yc / 400 * 146097 + g4 (yc % 400 + 1)) :
    monthOf n = 2 := by
  have hgap := g4_gap (yc % 400) (by omega)
  have hms : mpStart (11 + 1) = 367 := by unfold mpStart; omega
  have := monthOf_window n (yc % 400) 11 (by omega) (by omega) (by omega) (by omega)
    (yc / 400) hl (by omega) (by omega)
  simpa using this

theorem monthOf_in_month (Y m n : Int) (hm1 : 1 ≤ m) (hm2 : m ≤ 12)
    (hl : monthStart Y m ≤ n) (hr : n < monthStartNext Y m) : monthOf n = m := by
  have hd := monthStart_decomp Y m hm1 hm2
  rcases lt_or_le m 2 with hcase | hcase
  · -- m = 1 (January): class Y - 1, shifted index 10
    have hm : m = 1 := by omega
    subst hm
    rw [if_pos (by norm_num : (1 : Int) ≤ 2), if_neg (by norm_num : ¬(2 : Int) < 1)] at hd
    norm_num at hd
    have hd2 := monthStart_decomp Y 2 (by norm_num) (by norm_num)
    rw [if_pos (by norm_num : (2 : Int) ≤ 2), if_neg (by norm_num : ¬(2 : Int) < 2)] at hd2
    norm_num at hd2
    have hb2 : monthStart Y 2 = daysFromCivil Y 2 1 := rfl
    unfold monthStartNext at hr
    rw [if_neg (by norm_num : (1 : Int) ≠ 12)] at hr
    norm_num at hr
    have h306 : mpStart 10 = 306 := by unfold mpStart; omega
    have h337 : mpStart (10 + 1) = 337 := by unfold mpStart; omega
    have h11' : mpStart 11 = 337 := by unfold mpStart; omega
    have hx := monthOf_between n (Y - 1) 10 (by omega) (by omega) (by omega) (by omega)
    simpa using hx
  · rcases eq_or_lt_of_le hcase with hm | hcase
    · -- m = 2 (February): class Y - 1, shifted index 11; the next month start
      -- lies in the class of Y, related through `feb_mar_boundary`.
      have hm' : m = 2 := hm.symm
      subst hm'
      rw [if_pos (by norm_num : (2 : Int) ≤ 2), if_neg (by norm_num : ¬(2 : Int) < 2)] at hd
      norm_num at hd
      unfold monthStartNext at hr
      rw [if_neg (by norm_num : (2 : Int) ≠ 12)] at hr
      norm_num at hr
      have hd3 := monthStart_decomp Y 3 (by norm_num) (by norm_num)
      rw [if_neg (by norm_num : ¬(3 : Int) ≤ 2), if_pos (by norm_num : (2 : Int) < 3)] at hd3
      norm_num at hd3
      have hb3 : monthStart Y 3 = daysFromCivil Y 3 1 := rfl
      have h0' : mpStart 0 = 0 := by unfold mpStart; omega
      have h11' : mpStart 11 = 337 := by unfold mpStart; omega
      have hb := feb_mar_boundary Y
      apply monthOf_feb n (Y - 1) (by omega) (by omega)
    · -- 3 ≤ m ≤ 12: class Y, shifted index m - 3
      rw [if_neg (by omega : ¬m ≤ 2), if_pos (by omega : 2 < m)] at hd
      rcases lt_or_le m 12 with h12 | h12
      · -- 3 ≤ m ≤ 11: next month start in the same class
        have hdn := monthStart_decomp Y (m + 1) (by omega) (by omega)
        rw [if_neg (by omega : ¬m + 1 ≤ 2), if_pos (by omega : 2 < m + 1)] at hdn
        have harg : m + 1 - 3 = m - 3 + 1 := by ring
        rw [harg] at hdn
        have hbn : monthStart Y (m + 1) = daysFromCivil Y (m + 1) 1 := rfl
        unfold monthStartNext at hr
        rw [if_neg (by omega : m ≠ 12)] at hr
        have hx := monthOf_between n Y (m - 3) (by omega) (by omega) (by omega) (by omega)
        rw [if_pos (by omega : m - 3 < 10)] at hx
        omega
      · -- m = 12: next month is January of Y + 1, same class Y
        have hm' : m = 12 := by omega
        subst hm'
        norm_num at hd
        unfold monthStartNext at hr
        rw [if_pos rfl] at hr
        have hdn := monthStart_decomp (Y + 1) 1 (by norm_num) (by norm_num)
        rw [if_pos (by norm_num : (1 : Int) ≤ 2), if_neg (by norm_num : ¬(2 : Int) < 1)] at hdn
        norm_num at hdn
        have hbn : monthStart (Y + 1) 1 = daysFromCivil (Y + 1) 1 1 := rfl
        have h275 : mpStart 9 = 275 := by unfold mpStart; omega
        have h306 : mpStart (9 + 1) = 306 := by unfold mpStart; omega
        have h306' : mpStart 10 = 306 := by unfold mpStart; omega
        have hx := monthOf_between n Y 9 (by omega) (by omega) (by omega) (by omega)
        simpa using hx

theorem monthStartNext_eq (Y m : Int) (h : m ≠ 12) :
    monthStartNext Y m = monthStart Y (m + 1) := by
  unfold monthStartNext monthStart
  rw [if_neg h]

theorem janFirst_eq (Y : Int) : janFirst Y = monthStart Y 1 := rfl

theorem decLast_succ (Y : Int) : decLast Y + 1 = monthStartNext Y 12 := by
  unfold decLast monthStartNext daysFromCivil
  rw [if_pos rfl]
  dsimp only
  norm_num
  omega

theorem monthLen_bounds (Y m : Int) (h1 : 1 ≤ m) (h2 : m ≤ 12) :
    monthStart Y m + 28 ≤ monthStartNext Y m ∧
      monthStartNext Y m ≤ monthStart Y m + 31 := by
  have hd := monthStart_decomp Y m h1 h2
  rcases lt_or_le m 2 with hcase | hcase
  · have hm : m = 1 := by omega
    subst hm
    rw [if_pos (by norm_num : (1 : Int) ≤ 2), if_neg (by norm_num : ¬(2 : Int) < 1)] at hd
    norm_num at hd
    have hd2 := monthStart_decomp Y 2 (by norm_num) (by norm_num)
    rw [if_pos (by norm_num : (2 : Int) ≤ 2), if_neg (by norm_num : ¬(2 : Int) < 2)] at hd2
    norm_num at hd2
    rw [monthStartNext_eq Y 1 (by norm_num)]
    have h306 : mpStart 10 = 306 := by unfold mpStart; omega
    have h337 : mpStart 11 = 337 := by unfold mpStart; omega
    norm_num
    omega
  · rcases eq_or_lt_of_le hcase with hm | hcase
    · have hm' : m = 2 := hm.symm
      subst hm'
      rw [if_pos (by norm_num : (2 : Int) ≤ 2), if_neg (by norm_num : ¬(2 : Int) < 2)] at hd
      norm_num at hd
      have hd3 := monthStart_decomp Y 3 (by norm_num) (by norm_num)
      rw [if_neg (by norm_num : ¬(3 : Int) ≤ 2), if_pos (by norm_num : (2 : Int) < 3)] at hd3
      norm_num at hd3
      rw [monthStartNext_eq Y 2 (by norm_num)]
      have hb := feb_mar_boundary Y
      have hgap := g4_gap ((Y - 1) % 400) (by omega)
      have h0' : mpStart 0 = 0 := by unfold mpStart; omega
      have h337 : mpStart 11 = 337 := by unfold mpStart; omega
      norm_num
      omega
    · rcases lt_or_le m 12 with h12 | h12
      · rw [if_neg (by omega : ¬m ≤ 2), if_pos (by omega : 2 < m)] at hd
        have hdn := monthStart_decomp Y (m + 1) (by omega) (by omega)
        rw [if_neg (by omega : ¬m + 1 ≤ 2), if_pos (by omega : 2 < m + 1)] at hdn
        rw [monthStartNext_eq Y m (by omega)]
        have hms : mpStart (m + 1 - 3) - mpStart (m - 3) ≥ 30 ∧
            mpStart (m + 1 - 3) - mpStart (m - 3) ≤ 31 := by
          unfold mpStart; omega
        omega
      · have hm' : m = 12 := by omega
        subst hm'
        rw [if_neg (by norm_num : ¬(12 : Int) ≤ 2), if_pos (by norm_num : (2 : Int) < 12)] at hd
        norm_num at hd
        have hdn := monthStart_decomp (Y + 1) 1 (by norm_num) (by norm_num)
        rw [if_pos (by norm_num : (1 : Int) ≤ 2), if_neg (by norm_num : ¬(2 : Int) < 1)] at hdn
        norm_num at hdn
        have hnext : monthStartNext Y 12 = monthStart (Y + 1) 1 := by
          unfold monthStartNext monthStart
          rw [if_pos rfl]
        have h275 : mpStart 9 = 275 := by unfold mpStart; omega
        have h306 : mpStart 10 = 306 := by unfold mpStart; omega
        omega

theorem monthStart_le (Y a b : Int) (h1 : 1 ≤ a) (hab : a ≤ b) (h2 : b ≤ 12) :
    monthStart Y a ≤ monthStart Y b := by
  have step : ∀ c : Int, 1 ≤ c → c ≤ 11 → monthStart Y c ≤ monthStart Y (c + 1) := by
    intro c hc1 hc2
    have hlen := (monthLen_bounds Y c hc1 (by omega)).1
    have hne := monthStartNext_eq Y c (by omega)
    omega
  suffices H : ∀ k : Nat, ∀ a : Int, 1 ≤ a → a + k ≤ 12 → monthStart Y a ≤ monthStart Y (a + k) by
    have h := H (b - a).toNat a h1 (by omega)
    have harg : a + ((b - a).toNat : Int) = b := by omega
    rwa [harg] at h
  intro k
  induction k with
  | zero =>
    intro a ha _
    norm_num
  | succ i ih =>
    intro a ha h12
    have t1 : monthStart Y a ≤ monthStart Y (a + i) := ih a ha (by push_cast at h12 ⊢; omega)
    have t2 : monthStart Y (a + i) ≤ monthStart Y (a + i + 1) := by
      apply step (a + i) (by omega) (by push_cast at h12; omega)
    have harg : a + ((i + 1 : Nat) : Int) = a + i + 1 := by push_cast; ring
    rw [harg]
    omega

theorem month_coverage (Y n : Int) (h1 : monthStart Y 1 ≤ n) (h2 : n < monthStartNext Y 12) :
    ∃ m, 1 ≤ m ∧ m ≤ 12 ∧ monthStart Y m ≤ n ∧ n < monthStartNext Y m := by
  have bridge : ∀ c : Int, 1 ≤ c → c ≤ 11 → monthStartNext Y c = monthStart Y (c + 1) := by
    intro c hc1 hc2
    exact monthStartNext_eq Y c (by omega)
  rcases lt_or_le n (monthStart Y 2) with h | h
  · exact ⟨1, by norm_num, by norm_num, h1, by rw [bridge 1 (by norm_num) (by norm_num)]; norm_num; exact h⟩
  rcases lt_or_le n (monthStart Y 3) with h' | h'
  · exact ⟨2, by norm_num, by norm_num, h, by rw [bridge 2 (by norm_num) (by norm_num)]; norm_num; exact h'⟩
  rcases lt_or_le n (monthStart Y 4) with h | h
  · exact ⟨3, by norm_num, by norm_num, h', by rw [bridge 3 (by norm_num) (by norm_num)]; norm_num; exact h⟩
  rcases lt_or_le n (monthStart Y 5) with h' | h'
  · exact ⟨4, by norm_num, by norm_num, h, by rw [bridge 4 (by norm_num) (by norm_num)]; norm_num; exact h'⟩
  rcases lt_or_le n (monthStart Y 6) with h | h
  · exact ⟨5, by norm_num, by norm_num, h', by rw [bridge 5 (by norm_num) (by norm_num)]; norm_num; exact h⟩
  rcases lt_or_le n (monthStart Y 7) with h' | h'
  · exact ⟨6, by norm_num, by norm_num, h, by rw [bridge 6 (by norm_num) (by norm_num)]; norm_num; exact h'⟩
  rcases lt_or_le n (monthStart Y 8) with h | h
  · exact ⟨7, by norm_num, by norm_num, h', by rw [bridge 7 (by norm_num) (by norm_num)]; norm_num; exact h⟩
  rcases lt_or_le n (monthStart Y 9) with h' | h'
  · exact ⟨8, by norm_num, by norm_num, h, by rw [bridge 8 (by norm_num) (by norm_num)]; norm_num; exact h'⟩
  rcases lt_or_le n (monthStart Y 10) with h | h
  · exact ⟨9, by norm_num, by norm_num, h', by rw [bridge 9 (by norm_num) (by norm_num)]; norm_num; exact h⟩
  rcases lt_or_le n (monthStart Y 11) with h' | h'
  · exact ⟨10, by norm_num, by norm_num, h, by rw [bridge 10 (by norm_num) (by norm_num)]; norm_num; exact h'⟩
  rcases lt_or_le n (monthStart Y 12) with h | h
  · exact ⟨11, by norm_num, by norm_num, h', by rw [bridge 11 (by norm_num) (by norm_num)]; norm_num; exact h⟩
  · exact ⟨12, by norm_num, by norm_num, h, h2⟩

theorem year_span (Y : Int) :
    364 ≤ decLast Y - janFirst Y ∧ decLast Y - janFirst Y ≤ 365 := by
  have hj := monthStart_decomp Y 1 (by norm_num) (by norm_num)
  rw [if_pos (by norm_num : (1 : Int) ≤ 2), if_neg (by norm_num : ¬(2 : Int) < 1)] at hj
  norm_num at hj
  have hn := monthStart_decomp (Y + 1) 1 (by norm_num) (by norm_num)
  rw [if_pos (by norm_num : (1 : Int) ≤ 2), if_neg (by norm_num : ¬(2 : Int) < 1)] at hn
  norm_num at hn
  have hd : decLast Y + 1 = monthStart (Y + 1) 1 := by
    rw [decLast_succ]
    unfold monthStartNext monthStart
    rw [if_pos rfl]
  have hb := feb_mar_boundary Y
  have hgap := g4_gap ((Y - 1) % 400) (by omega)
  have hjan : janFirst Y = monthStart Y 1 := rfl
  omega

theorem monthOf_in_year (Y n : Int) (h1 : janFirst Y ≤ n) (h2 : n ≤ decLast Y) :
    ∃ m, 1 ≤ m ∧ m ≤ 12 ∧ monthOf n = m ∧
      monthStart Y m ≤ n ∧ n < monthStartNext Y m := by
  have hds := decLast_succ Y
  obtain ⟨m, hm1, hm2, hl, hr⟩ := month_coverage Y n (by rw [← janFirst_eq]; exact h1) (by omega)
  exact ⟨m, hm1, hm2, monthOf_in_month Y m n hm1 hm2 hl hr, hl, hr⟩

theorem monthOf_bounds_in_year (Y n : Int) (h1 : janFirst Y ≤ n) (h2 : n ≤ decLast Y) :
    1 ≤ monthOf n ∧ monthOf n ≤ 12 := by
  obtain ⟨m, hm1, hm2, hmeq, -, -⟩ := monthOf_in_year Y n h1 h2
  omega

theorem monthOf_jan (Y : Int) : monthOf (janFirst Y) = 1 := by
  have hlen := (monthLen_bounds Y 1 (by norm_num) (by norm_num)).1
  exact monthOf_in_month Y 1 (janFirst Y) (by norm_num) (by norm_num)
    (le_of_eq (janFirst_eq Y)) (by rw [janFirst_eq]; omega)

theorem monthOf_mono (Y n1 n2 : Int) (h1 : janFirst Y ≤ n1) (h2 : n1 ≤ n2)
    (h3 : n2 ≤ decLast Y) : monthOf n1 ≤ monthOf n2 := by
  obtain ⟨m1, hm11, hm12, he1, hl1, hr1⟩ := monthOf_in_year Y n1 h1 (by omega)
  obtain ⟨m2, hm21, hm22, he2, hl2, hr2⟩ := monthOf_in_year Y n2 (by omega) h3
  by_contra hc
  have hlt : m2 < m1 := by omega
  have hb := monthStartNext_eq Y m2 (by omega)
  have := monthStart_le Y (m2 + 1) m1 (by omega) (by omega) (by omega)
  omega

theorem monthOf_step (Y n1 n2 : Int) (h1 : janFirst Y ≤ n1) (h2 : n1 ≤ n2)
    (h2' : n2 ≤ n1 + 7) (h3 : n2 ≤ decLast Y) : monthOf n2 ≤ monthOf n1 + 1 := by
  obtain ⟨m1, hm11, hm12, he1, hl1, hr1⟩ := monthOf_in_year Y n1 h1 (by omega)
  obtain ⟨m2, hm21, hm22, he2, hl2, hr2⟩ := monthOf_in_year Y n2 (by omega) h3
  by_contra hc
  have hlt : m1 + 2 ≤ m2 := by omega
  have hb1 : monthStartNext Y m1 = monthStart Y (m1 + 1) := monthStartNext_eq Y m1 (by omega)
  have hb2 : monthStartNext Y (m1 + 1) = monthStart Y (m1 + 2) := by
    rw [monthStartNext_eq Y (m1 + 1) (by omega)]
    have harg : m1 + 1 + 1 = m1 + 2 := by ring
    rw [harg]
  have hlen := (monthLen_bounds Y (m1 + 1) (by omega) (by omega)).1
  have hmono := monthStart_le Y (m1 + 2) m2 (by omega) (by omega) (by omega)
  omega

theorem monthOf_dec (Y n : Int) (h1 : decLast Y - 6 ≤ n) (h2 : n ≤ decLast Y) :
    monthOf n = 12 := by
  have hds := decLast_succ Y
  have hlen := (monthLen_bounds Y 12 (by norm_num) (by norm_num)).1
  exact monthOf_in_month Y 12 n (by norm_num) (by norm_num) (by omega) (by omega)

/-! ## The year grid -/

theorem yearGrid_eq (Y : Int) :
    yearGrid Y = organizeLoop (aEnd Y + 1 - aStart Y).toNat (aStart Y) (aEnd Y)
      (janFirst Y) (decLast Y) := by
  unfold yearGrid organize_weeks aStart aEnd
  dsimp only
  rw [adjust_fst, adjust_snd]

theorem year_bounds (Y : Int) :
    aStart Y ≤ janFirst Y ∧ janFirst Y - 6 ≤ aStart Y ∧
      decLast Y ≤ aEnd Y ∧ aEnd Y ≤ decLast Y + 6 ∧
      weekday (aStart Y) = 0 ∧ weekday (aEnd Y) = 6 ∧
      (aEnd Y + 1 - aStart Y) % 7 = 0 ∧
      365 ≤ aEnd Y + 1 - aStart Y ∧ aEnd Y + 1 - aStart Y ≤ 378 := by
  have hspan := year_span Y
  unfold aStart aEnd weekday
  omega

theorem yearGrid_hpos (Y : Int) :
    ∀ n, janFirst Y ≤ n → n ≤ decLast Y → 0 < monthOf n := by
  intro n h1 h2
  have := monthOf_bounds_in_year Y n h1 h2
  omega

theorem yearGrid_length (Y : Int) :
    ((yearGrid Y).1.length : Int) = (aEnd Y + 1 - aStart Y) / 7 := by
  have hb := year_bounds Y
  rw [yearGrid_eq]
  exact organizeLoop_length _ _ _ _ _ (by omega) (by omega) (by omega)

theorem yearGrid_length_bounds (Y : Int) :
    53 ≤ (yearGrid Y).1.length ∧ (yearGrid Y).1.length ≤ 54 := by
  have hb := year_bounds Y
  have hl := yearGrid_length Y
  omega

theorem yearGrid_len_eq (Y : Int) :
    (yearGrid Y).1.length = (yearGrid Y).2.length := by
  rw [yearGrid_eq]
  exact organizeLoop_len_eq _ _ _ _ _

theorem yearGrid_row (Y : Int) (i : Nat) (hi : i < (yearGrid Y).1.length) :
    (yearGrid Y).1.getD i [] =
      (buildWeek 7 (aStart Y + 7 * i) (janFirst Y) (decLast Y) 0).1 := by
  rw [yearGrid_eq] at hi ⊢
  exact organizeLoop_row _ _ _ _ _ i hi

theorem yearGrid_wm_raw (Y : Int) (i : Nat) (hi : i < (yearGrid Y).2.length) :
    (yearGrid Y).2.getD i 0 =
      (buildWeek 7 (aStart Y + 7 * i) (janFirst Y) (decLast Y) 0).2.1 := by
  rw [yearGrid_eq] at hi ⊢
  exact organizeLoop_wm _ _ _ _ _ i hi

theorem yearGrid_week_start_bounds (Y : Int) (i : Nat) (hi : i < (yearGrid Y).1.length) :
    aStart Y ≤ aStart Y + 7 * i ∧ aStart Y + 7 * i ≤ aEnd Y - 6 := by
  have hb := year_bounds Y
  have hl := yearGrid_length Y
  have hii : (i : Int) < (yearGrid Y).1.length := by exact_mod_cast hi
  constructor
  · omega
  · omega

theorem yearGrid_wm (Y : Int) (i : Nat) (hi : i < (yearGrid Y).2.length) :
    (yearGrid Y).2.getD i 0 =
      monthOf (max (aStart Y + 7 * i) (janFirst Y)) ∧
      janFirst Y ≤ max (aStart Y + 7 * i) (janFirst Y) ∧
      max (aStart Y + 7 * i) (janFirst Y) ≤ decLast Y := by
  have hb := year_bounds Y
  have hi1 : i < (yearGrid Y).1.length := by rw [yearGrid_len_eq]; exact hi
  have hws := yearGrid_week_start_bounds Y i hi1
  set ws := aStart Y + 7 * (i : Int) with hws_def
  have hin1 : janFirst Y ≤ max ws (janFirst Y) := le_max_right _ _
  have hin2 : max ws (janFirst Y) ≤ decLast Y := by
    apply max_le <;> omega
  refine ⟨?_, hin1, hin2⟩
  rw [yearGrid_wm_raw Y i hi, buildWeek_wm_zero 7 ws (janFirst Y) (decLast Y) (yearGrid_hpos Y)]
  have hcond : max ws (janFirst Y) < ws + ((7 : Nat) : Int) ∧ max ws (janFirst Y) ≤ decLast Y := by
    constructor
    · have h1 := le_max_left ws (janFirst Y)
      have h2 := le_max_right ws (janFirst Y)
      rcases max_cases ws (janFirst Y) with ⟨hm, -⟩ | ⟨hm, -⟩ <;> rw [hm] <;> push_cast <;> omega
    · exact hin2
  rw [if_pos hcond]

theorem yearGrid_count (Y n : Int) :
    gridCount n (yearGrid Y).1 = if janFirst Y ≤ n ∧ n ≤ decLast Y then 1 else 0 := by
  have hb := year_bounds Y
  rw [yearGrid_eq]
  unfold gridCount
  rw [organizeLoop_count _ _ _ _ _ _ (by omega) (by omega)]
  split_ifs <;> omega

theorem yearGrid_wm_attains (Y m : Int) (h1 : 1 ≤ m) (h2 : m ≤ 12) :
    ∃ i : Nat, i < (yearGrid Y).2.length ∧ (yearGrid Y).2.getD i 0 = m := by
  have hb := year_bounds Y
  have hlen := yearGrid_length Y
  have hleneq := yearGrid_len_eq Y
  have hlb := yearGrid_length_bounds Y
  rcases eq_or_lt_of_le h1 with hm1 | hm1
  · refine ⟨0, by omega, ?_⟩
    obtain ⟨heq, hin1, hin2⟩ := yearGrid_wm Y 0 (by omega)
    rw [heq]
    have hmax : max (aStart Y + 7 * ((0 : Nat) : Int)) (janFirst Y) = janFirst Y := by
      rw [max_eq_right]; push_cast; omega
    rw [hmax, monthOf_jan]
    omega
  · -- 2 ≤ m: find the unique week whose Sunday falls inside month m
    have hm2' : 2 ≤ m := by omega
    have ht2 : monthStart Y 2 ≤ monthStart Y m := monthStart_le Y 2 m (by norm_num) hm2' h2
    have hlen1 := (monthLen_bounds Y 1 (by norm_num) (by norm_num)).1
    have hb1 : monthStartNext Y 1 = monthStart Y 2 := by
      rw [monthStartNext_eq Y 1 (by norm_num)]; norm_num
    have hjan : janFirst Y = monthStart Y 1 := janFirst_eq Y
    have ht0 : janFirst Y + 28 ≤ monthStart Y m := by omega
    have ht12 : monthStart Y m ≤ monthStart Y 12 := monthStart_le Y m 12 h1 h2 (by norm_num)
    have hlen12 := (monthLen_bounds Y 12 (by norm_num) (by norm_num)).1
    have hds := decLast_succ Y
    have htop : monthStart Y m + 6 ≤ decLast Y - 21 := by omega
    have hlenm := (monthLen_bounds Y m h1 h2).1
    set t := monthStart Y m with hts
    set ws := t + (aStart Y - t) % 7 with hws
    have hr7 : 0 ≤ (aStart Y - t) % 7 ∧ (aStart Y - t) % 7 < 7 := by omega
    have hcong : (ws - aStart Y) % 7 = 0 := by omega
    have hwsge : 0 ≤ ws - aStart Y := by omega
    refine ⟨((ws - aStart Y) / 7).toNat, ?_, ?_⟩
    · have hwsend : ws ≤ aEnd Y - 6 := by omega
      omega
    · have hi : (((ws - aStart Y) / 7).toNat : Int) = (ws - aStart Y) / 7 := by omega
      have hilen : ((ws - aStart Y) / 7).toNat < (yearGrid Y).2.length := by
        have hwsend : ws ≤ aEnd Y - 6 := by omega
        omega
      obtain ⟨heq, hin1, hin2⟩ := yearGrid_wm Y _ hilen
      rw [heq]
      have hwseq : aStart Y + 7 * ((((ws - aStart Y) / 7).toNat : Nat) : Int) = ws := by
        rw [hi]; omega
      rw [hwseq]
      have hmax : max ws (janFirst Y) = ws := max_eq_left (by omega)
      rw [hmax]
      exact monthOf_in_month Y m ws h1 h2 (by omega) (by omega)

theorem yearGrid_wm_pairwise (Y : Int) : (yearGrid Y).2.Pairwise (· ≤ ·) := by
  rw [List.pairwise_iff_getElem]
  intro i j hi hj hij
  have gi := yearGrid_wm Y i hi
  have gj := yearGrid_wm Y j hj
  rw [← List.getD_eq_getElem (yearGrid Y).2 0 hi, ← List.getD_eq_getElem (yearGrid Y).2 0 hj,
    gi.1, gj.1]
  apply monthOf_mono Y _ _ gi.2.1 _ gj.2.2
  apply max_le_max _ (le_refl _)
  have : (i : Int) ≤ (j : Int) := by exact_mod_cast le_of_lt hij
  omega

theorem yearGrid_wm_pos (Y : Int) (i : Nat) (hi : i < (yearGrid Y).2.length) :
    1 ≤ (yearGrid Y).2.getD i 0 ∧ (yearGrid Y).2.getD i 0 ≤ 12 := by
  obtain ⟨heq, h1, h2⟩ := yearGrid_wm Y i hi
  rw [heq]
  exact monthOf_bounds_in_year Y _ h1 h2

/-! ## Month labels and separators -/

theorem monthLabelsLoop_char (wms : List Int) (last : Int) (i : Nat) (hi : i < wms.length) :
    (monthLabelsLoop wms last).getD i none =
      if wms.getD i 0 ≠ (wms.take i).foldl
          (fun last wm => if wm ≠ last ∧ wm ≠ 0 then wm else last) last ∧
          wms.getD i 0 ≠ 0 then
        some (wms.getD i 0)
      else none := by
  induction wms generalizing last i with
  | nil => simp at hi
  | cons wm rest ih =>
    cases i with
    | zero =>
      simp only [List.take_zero, List.foldl_nil, List.getD_cons_zero]
      unfold monthLabelsLoop
      by_cases hc : wm ≠ last ∧ wm ≠ 0
      · rw [if_pos hc, if_pos hc]
        rfl
      · rw [if_neg hc, if_neg hc]
        rfl
    | succ j =>
      simp only [List.length_cons, Nat.succ_lt_succ_iff] at hi
      simp only [List.take_succ_cons, List.foldl_cons, List.getD_cons_succ]
      unfold monthLabelsLoop
      by_cases hc : wm ≠ last ∧ wm ≠ 0
      · rw [if_pos hc, List.getD_cons_succ, ih _ j hi, if_pos hc]
      · rw [if_neg hc, List.getD_cons_succ, ih _ j hi, if_neg hc]

theorem month_labels_char (wms : List Int) (i : Nat) (hi : i < wms.length) :
    (month_labels wms).getD i none =
      if wms.getD i 0 ≠ lastLabeled (wms.take i) ∧ wms.getD i 0 ≠ 0 then
        some (wms.getD i 0)
      else none := by
  unfold month_labels lastLabeled
  exact monthLabelsLoop_char wms 0 i hi

theorem monthLabelsLoop_count (l : List Int) (last v : Int)
    (hpos : ∀ x ∈ l, 0 < x) (hmono : l.Pairwise (· ≤ ·)) (hlast : ∀ x ∈ l, last ≤ x) :
    (monthLabelsLoop l last).count (some v) = if v ∈ l ∧ v ≠ last then 1 else 0 := by
  induction l generalizing last with
  | nil => simp [monthLabelsLoop]
  | cons wm rest ih =>
    obtain ⟨hhead, hrest⟩ := List.pairwise_cons.mp hmono
    have hwm_pos : 0 < wm := hpos wm (List.mem_cons_self wm rest)
    by_cases hc : wm ≠ last ∧ wm ≠ 0
    · have hlast_lt : last < wm := by
        have := hlast wm (List.mem_cons_self wm rest)
        rcases hc with ⟨h1, -⟩
        omega
      unfold monthLabelsLoop
      rw [if_pos hc, List.count_cons,
        ih wm (fun x hx => hpos x (List.mem_cons_of_mem wm hx)) hrest hhead]
      by_cases hv : v = wm
      · subst hv
        have h1 : ¬(v ∈ rest ∧ v ≠ v) := by simp
        have h2 : v ∈ v :: rest ∧ v ≠ last := ⟨List.mem_cons_self v rest, hc.1⟩
        rw [if_neg h1, if_pos h2]
        simp
      · have hbeq : ((some wm : Option Int) == some v) = false := by
          simp only [beq_eq_false_iff_ne, ne_eq, Option.some.injEq]
          exact fun h => hv h.symm
        simp only [hbeq, if_neg Bool.false_ne_true, add_zero]
        by_cases hmem : v ∈ rest
        · have hne : v ≠ last := by
            have := hhead v hmem
            omega
          rw [if_pos ⟨hmem, fun h => hv h⟩, if_pos ⟨List.mem_cons_of_mem wm hmem, hne⟩]
        · rw [if_neg ?_, if_neg ?_]
          · rintro ⟨hm, -⟩
            rcases List.mem_cons.mp hm with h | h
            · exact hv h
            · exact hmem h
          · rintro ⟨hm, -⟩
            exact hmem hm
    · have hwm : wm = last := by
        rcases not_and_or.mp hc with h | h
        · push_neg at h; exact h
        · push_neg at h; omega
      unfold monthLabelsLoop
      rw [if_neg hc, List.count_cons]
      have hbeq : ((none : Option Int) == some v) = false := rfl
      simp only [hbeq, if_neg Bool.false_ne_true, add_zero]
      rw [ih last (fun x hx => hpos x (List.mem_cons_of_mem wm hx)) hrest
        (fun x hx => by have := hhead x hx; omega)]
      by_cases hvl : v ≠ last ∧ v ∈ rest
      · rw [if_pos ⟨hvl.2, hvl.1⟩, if_pos ⟨List.mem_cons_of_mem wm hvl.2, hvl.1⟩]
      · have hn1 : ¬(v ∈ rest ∧ v ≠ last) := fun h => hvl ⟨h.2, h.1⟩
        rw [if_neg hn1, if_neg ?_]
        rintro ⟨hm, hne⟩
        rcases List.mem_cons.mp hm with h | h
        · exact hne (h.trans hwm)
        · exact hvl ⟨hne, h⟩

theorem month_labels_head (wms : List Int) (hne : wms ≠ []) (h1 : wms.getD 0 0 ≠ 0) :
    (month_labels wms).getD 0 none = some (wms.getD 0 0) := by
  cases wms with
  | nil => exact absurd rfl hne
  | cons wm rest =>
    simp only [List.getD_cons_zero] at h1 ⊢
    unfold month_labels monthLabelsLoop
    rw [if_pos ⟨h1, h1⟩]
    rfl

theorem month_labels_count (Y m : Int) (h1 : 1 ≤ m) (h2 : m ≤ 12) :
    (month_labels (yearGrid Y).2).count (some m) = 1 := by
  unfold month_labels
  rw [monthLabelsLoop_count (yearGrid Y).2 0 m ?hpos (yearGrid_wm_pairwise Y) ?hlast]
  case hpos =>
    intro x hx
    obtain ⟨i, hi, hgy⟩ := List.mem_iff_getElem.mp hx
    have := yearGrid_wm_pos Y i hi
    rw [List.getD_eq_getElem (yearGrid Y).2 0 hi] at this
    omega
  case hlast =>
    intro x hx
    obtain ⟨i, hi, hgy⟩ := List.mem_iff_getElem.mp hx
    have := yearGrid_wm_pos Y i hi
    rw [List.getD_eq_getElem (yearGrid Y).2 0 hi] at this
    omega
  rw [if_pos ?_]
  obtain ⟨i, hi, hv⟩ := yearGrid_wm_attains Y m h1 h2
  constructor
  · rw [← hv, List.getD_eq_getElem (yearGrid Y).2 0 hi]
    exact List.getElem_mem hi
  · omega

theorem separators_length (wms : List Int) :
    (separators wms).length = wms.length - 1 := by
  unfold separators
  rw [List.length_map, List.length_range]

theorem separators_getD (wms : List Int) (i : Nat) (hi : i + 1 < wms.length) :
    (separators wms).getD i false =
      decide (wms.getD i 0 ≠ wms.getD (i + 1) 0 ∧ wms.getD (i + 1) 0 ≠ 0) := by
  unfold separators
  have hlen : i < ((List.range (wms.length - 1)).map fun i =>
      decide (wms.getD i 0 ≠ wms.getD (i + 1) 0 ∧ wms.getD (i + 1) 0 ≠ 0)).length := by
    rw [List.length_map, List.length_range]
    omega
  rw [List.getD_eq_getElem _ false hlen, List.getElem_map, List.getElem_range]

/-! ## Commit counting -/

theorem bumpCount_sum (l : List (Int × Nat)) (d : Int) :
    sumVals (bumpCount l d) = sumVals l + 1 := by
  induction l with
  | nil => rfl
  | cons kv rest ih =>
    obtain ⟨k, v⟩ := kv
    unfold bumpCount
    by_cases h : k = d
    · rw [if_pos h]
      unfold sumVals at *
      simp only [List.map_cons, List.sum_cons]
      omega
    · rw [if_neg h]
      unfold sumVals at *
      simp only [List.map_cons, List.sum_cons, ih]
      omega

theorem collect_commit_counts_sum (dates : List Int) (year : Int) :
    sumVals (collect_commit_counts dates year) =
      (dates.filter (fun d => yearOf d = year)).length := by
  suffices H : ∀ acc : List (Int × Nat),
      sumVals (dates.foldl
        (fun acc d => if yearOf d = year then bumpCount acc d else acc) acc) =
        sumVals acc + (dates.filter (fun d => yearOf d = year)).length by
    have h := H []
    unfold collect_commit_counts
    rw [h]
    simp [sumVals]
  induction dates with
  | nil => intro acc; simp
  | cons d rest ih =>
    intro acc
    simp only [List.foldl_cons, List.filter_cons]
    by_cases h : yearOf d = year
    · rw [if_pos h, ih]
      simp only [h, bumpCount_sum, List.length_cons]
      simp
      omega
    · rw [if_neg h, ih]
      simp [h]

theorem collect_commit_counts_other (dates : List Int) (year d : Int)
    (h : yearOf d ≠ year) :
    collect_commit_counts (dates ++ [d]) year = collect_commit_counts dates year := by
  unfold collect_commit_counts
  rw [List.foldl_append]
  simp only [List.foldl_cons, List.foldl_nil, if_neg h]

/-! ## Intensity buckets (spec side) -/

/-! ## The claims -/

/-- C1: for every year `Y`, the grid built from the Sunday-aligned padded start to the
Saturday-aligned padded end consists of rows of exactly 7 slots; every calendar day in
`[Jan 1 Y, Dec 31 Y]` appears as an in-year slot in exactly one position across the
whole grid; every other slot is blank (a `some` slot never holds an out-of-year day,
and slot `j` of any row always falls on weekday `j`, so rows run Sunday .. Saturday);
the padded start the grid begins on is a Sunday and the padded end it finishes on is a
Saturday. -/
theorem claim_C1 (Y n : Int) :
    (∀ w ∈ (yearGrid Y).1, w.length = 7) ∧
    (janFirst Y ≤ n → n ≤ decLast Y → gridCount n (yearGrid Y).1 = 1) ∧
    (¬(janFirst Y ≤ n ∧ n ≤ decLast Y) → gridCount n (yearGrid Y).1 = 0) ∧
    (∀ i j : Nat, i < (yearGrid Y).1.length → j < 7 → ∀ d : Int,
      ((yearGrid Y).1.getD i []).getD j none = some d → weekday d = (j : Int)) ∧
    weekday (adjust_start_and_end_dates (janFirst Y) (decLast Y)).1 = 0 ∧
    weekday (adjust_start_and_end_dates (janFirst Y) (decLast Y)).2 = 6 := by
  have hb := year_bounds Y
  refine ⟨?_, ?_, ?_, ?_, ?_, ?_⟩
  · rw [yearGrid_eq]
    exact organizeLoop_rows7 _ _ _ _ _
  · intro h1 h2
    rw [yearGrid_count]
    rw [if_pos ⟨h1, h2⟩]
  · intro h
    rw [yearGrid_count, if_neg h]
  · intro i j hi hj d hslot
    rw [yearGrid_row Y i hi, buildWeek_slot 7 _ _ _ 0 j (by omega)] at hslot
    have hd : d = aStart Y + 7 * i + j := by
      by_cases hc : janFirst Y ≤ aStart Y + 7 * (i : Int) + (j : Int) ∧
          aStart Y + 7 * (i : Int) + (j : Int) ≤ decLast Y
      · rw [if_pos hc] at hslot
        exact (Option.some.injEq _ _ ▸ hslot).symm
      · rw [if_neg hc] at hslot
        exact absurd hslot (by simp)
    subst hd
    unfold weekday at hb ⊢
    have hj7 : (j : Int) < 7 := by exact_mod_cast hj
    omega
  · rw [adjust_fst]
    unfold weekday
    omega
  · rw [adjust_snd]
    unfold weekday
    omega

/-- C1 witness at year 2021 and a concrete mid-year day. -/
theorem claim_C1_witness :
    gridCount (daysFromCivil 2021 3 15) (yearGrid 2021).1 = 1 ∧
    gridCount (daysFromCivil 2020 3 15) (yearGrid 2021).1 = 0 :=
  ⟨(claim_C1 2021 (daysFromCivil 2021 3 15)).2.1 (by decide) (by decide),
    (claim_C1 2021 (daysFromCivil 2020 3 15)).2.2.1 (by decide)⟩

/-- C2: the intensity classification is total on counts and maps 0 to Zero, 1 to Low,
2–3 to Medium, 4–5 to High and everything from 6 up to VeryHigh; the program's
`get_commit_color` is exactly this bucket map composed with the bucket → color table. -/
theorem claim_C2 (n : Nat) :
    get_commit_color n = bucketColor (classify n) ∧
    (n = 0 → classify n = IntensityBucket.zero) ∧
    (n = 1 → classify n = IntensityBucket.low) ∧
    (2 ≤ n → n ≤ 3 → classify n = IntensityBucket.medium) ∧
    (4 ≤ n → n ≤ 5 → classify n = IntensityBucket.high) ∧
    (6 ≤ n → classify n = IntensityBucket.veryHigh) := by
  unfold get_commit_color classify bucketColor
  split_ifs <;> simp_all <;> omega

/-- C2 witness at count 4 (High bucket, bright green). -/
theorem claim_C2_witness :
    get_commit_color 4 = bucketColor (classify 4) ∧
    classify 4 = IntensityBucket.high :=
  ⟨(claim_C2 4).1, (claim_C2 4).2.2.2.2.1 (by decide) (by decide)⟩

/-- C3 counterexample: the claim "the rendered appearance of a blank slot is distinct
from the appearance of an in-year day whose commit count is 0" is false: with no
commits, an in-year day renders exactly like a blank slot (empty label on DarkGrey),
since `get_commit_color 0 = DarkGrey` is also the blank background. -/
theorem claim_C3_counterexample :
    renderCell (some 0) [] = renderCell none [] := rfl

/-- C3 (amended): blank slots are never passed to the intensity classifier — a blank
cell renders as the empty label on DarkGrey regardless of the commit counts — but the
rendered appearance of a blank slot is identical to, not distinct from, that of an
in-year day whose commit count is 0. -/
theorem claim_C3 (commit_counts : List (Int × Nat)) (d : Int) :
    renderCell none commit_counts = (EMPTY_LABEL, Color.darkGrey) ∧
    (lookupCount commit_counts d = 0 →
      renderCell (some d) commit_counts = renderCell none commit_counts) := by
  constructor
  · rfl
  · intro h
    simp [renderCell, get_commit_color, h]

/-- C3 witness: a day with an entry of count 0 renders like a blank. -/
theorem claim_C3_witness :
    renderCell none [(5, 0)] = (EMPTY_LABEL, Color.darkGrey) ∧
    renderCell (some 5) [(5, 0)] = renderCell none [(5, 0)] :=
  ⟨(claim_C3 [(5, 0)] 5).1, (claim_C3 [(5, 0)] 5).2 (by decide)⟩

/-- C4: month labeling is a left-to-right scan from sentinel state 0: row `i` gets a
non-empty label exactly when its dominant month differs from the last labeled month
(the update-rule fold over the prefix) and is not the 0 sentinel; the label then is
that month, and all other rows get the empty label. -/
theorem claim_C4 (week_months : List Int) (i : Nat) (hi : i < week_months.length) :
    (month_labels week_months).getD i none =
      if week_months.getD i 0 ≠ lastLabeled (week_months.take i) ∧
          week_months.getD i 0 ≠ 0 then
        some (week_months.getD i 0)
      else none :=
  month_labels_char week_months i hi

/-- C4 witness on the sequence [1, 1, 2]: row 2 is labeled 2, row 1 is empty. -/
theorem claim_C4_witness :
    ((month_labels [1, 1, 2]).getD 2 none =
      if [1, 1, 2].getD 2 0 ≠ lastLabeled ([1, 1, 2].take 2) ∧
          [1, 1, 2].getD 2 0 ≠ 0 then
        some ([1, 1, 2].getD 2 0)
      else none) ∧
    ((month_labels [1, 1, 2]).getD 1 none =
      if [1, 1, 2].getD 1 0 ≠ lastLabeled ([1, 1, 2].take 1) ∧
          [1, 1, 2].getD 1 0 ≠ 0 then
        some ([1, 1, 2].getD 1 0)
      else none) :=
  ⟨claim_C4 [1, 1, 2] 2 (by decide), claim_C4 [1, 1, 2] 1 (by decide)⟩

/-- C5: for every year, each of the twelve months receives a label exactly once across
the grid's rows, and the first row's label (the first emitted label) is month 1. -/
theorem claim_C5 (Y m : Int) (h1 : 1 ≤ m) (h2 : m ≤ 12) :
    (month_labels (yearGrid Y).2).count (some m) = 1 ∧
    (month_labels (yearGrid Y).2).getD 0 none = some 1 := by
  refine ⟨month_labels_count Y m h1 h2, ?_⟩
  have hlb := yearGrid_length_bounds Y
  have hleneq := yearGrid_len_eq Y
  have hb := year_bounds Y
  have h0 : (0 : Nat) < (yearGrid Y).2.length := by omega
  obtain ⟨heq, -, -⟩ := yearGrid_wm Y 0 h0
  have hmax : max (aStart Y + 7 * ((0 : Nat) : Int)) (janFirst Y) = janFirst Y := by
    rw [max_eq_right]
    push_cast
    omega
  have h1' : (yearGrid Y).2.getD 0 0 = 1 := by
    rw [heq, hmax, monthOf_jan]
  rw [month_labels_head (yearGrid Y).2 (by
      intro hnil
      rw [hnil] at h0
      simp at h0) (by omega), h1']

/-- C5 witness at year 2021, month 5. -/
theorem claim_C5_witness :
    (month_labels (yearGrid 2021).2).count (some 5) = 1 ∧
    (month_labels (yearGrid 2021).2).getD 0 none = some 1 :=
  claim_C5 2021 5 (by decide) (by decide)

/-- C6: the separator sequence has exactly one entry per adjacency (its length is the
number of week rows minus one), and the separator between rows `i` and `i+1` is
emitted iff the dominant months differ and the right one is not the 0 sentinel. -/
theorem claim_C6 (Y : Int) (i : Nat) (hi : i + 1 < (yearGrid Y).2.length) :
    (separators (yearGrid Y).2).length = (yearGrid Y).1.length - 1 ∧
    ((separators (yearGrid Y).2).getD i false = true ↔
      ((yearGrid Y).2.getD i 0 ≠ (yearGrid Y).2.getD (i + 1) 0 ∧
        (yearGrid Y).2.getD (i + 1) 0 ≠ 0)) := by
  constructor
  · rw [separators_length, yearGrid_len_eq]
  · rw [separators_getD _ i hi]
    simp only [decide_eq_true_iff]

/-- C6 witness at year 2021, adjacency 4/5 (the January → February transition). -/
theorem claim_C6_witness :
    (separators (yearGrid 2021).2).length = (yearGrid 2021).1.length - 1 ∧
    ((separators (yearGrid 2021).2).getD 4 false = true ↔
      ((yearGrid 2021).2.getD 4 0 ≠ (yearGrid 2021).2.getD 5 0 ∧
        (yearGrid 2021).2.getD 5 0 ≠ 0)) :=
  claim_C6 2021 4 (by decide)

/-- C7: the padded start computed from Jan 1 is the unique Sunday on or before it
(a Sunday, at most 6 days earlier, with no Sunday strictly between), the padded end is
the unique Saturday on or after Dec 31, and both day-by-day walks terminate: any fuel
of at least 7 steps yields the same, already-stable result. -/
theorem claim_C7 (Y : Int) :
    weekday (adjust_start_and_end_dates (janFirst Y) (decLast Y)).1 = 0 ∧
    (adjust_start_and_end_dates (janFirst Y) (decLast Y)).1 ≤ janFirst Y ∧
    janFirst Y - 6 ≤ (adjust_start_and_end_dates (janFirst Y) (decLast Y)).1 ∧
    (∀ x : Int, (adjust_start_and_end_dates (janFirst Y) (decLast Y)).1 < x →
      x ≤ janFirst Y → weekday x ≠ 0) ∧
    weekday (adjust_start_and_end_dates (janFirst Y) (decLast Y)).2 = 6 ∧
    decLast Y ≤ (adjust_start_and_end_dates (janFirst Y) (decLast Y)).2 ∧
    (adjust_start_and_end_dates (janFirst Y) (decLast Y)).2 ≤ decLast Y + 6 ∧
    (∀ x : Int, decLast Y ≤ x →
      x < (adjust_start_and_end_dates (janFirst Y) (decLast Y)).2 → weekday x ≠ 6) ∧
    (∀ fuel : Nat, 7 ≤ fuel →
      adjustStartLoop fuel (janFirst Y) =
        (adjust_start_and_end_dates (janFirst Y) (decLast Y)).1 ∧
      adjustEndLoop fuel (decLast Y) =
        (adjust_start_and_end_dates (janFirst Y) (decLast Y)).2) := by
  rw [adjust_fst, adjust_snd]
  refine ⟨?_, ?_, ?_, ?_, ?_, ?_, ?_, ?_, ?_⟩
  · unfold weekday; omega
  · unfold weekday; omega
  · unfold weekday; omega
  · intro x hx1 hx2; unfold weekday at *; omega
  · unfold weekday; omega
  · unfold weekday; omega
  · unfold weekday; omega
  · intro x hx1 hx2; unfold weekday at *; omega
  · intro fuel hf
    have h1 := weekday_lt (janFirst Y)
    have h2 := weekday_nonneg (decLast Y)
    constructor
    · rw [adjustStartLoop_eq fuel _ (by omega)]
    · rw [adjustEndLoop_eq fuel _ (by omega)]

/-- C7 witness at year 2021 (Jan 1, 2021 is a Friday): the uniqueness clause applied to
Jan 1 itself and the walks run with fuel 9. -/
theorem claim_C7_witness :
    weekday (adjust_start_and_end_dates (janFirst 2021) (decLast 2021)).1 = 0 ∧
    weekday (janFirst 2021) ≠ 0 ∧
    adjustStartLoop 9 (janFirst 2021) =
      (adjust_start_and_end_dates (janFirst 2021) (decLast 2021)).1 :=
  ⟨(claim_C7 2021).1,
    (claim_C7 2021).2.2.2.1 (janFirst 2021) (by decide) (by decide),
    ((claim_C7 2021).2.2.2.2.2.2.2.2 9 (by decide)).1⟩

/-- C8: daily counting keeps exactly the dates of the target year, one increment per
occurrence: the sum of the map's values equals the number of input dates of that year;
a date of another year leaves the result unchanged; empty input yields the empty map. -/
theorem claim_C8 (dates : List Int) (year d : Int) :
    sumVals (collect_commit_counts dates year) =
      (dates.filter (fun x => yearOf x = year)).length ∧
    (yearOf d ≠ year →
      collect_commit_counts (dates ++ [d]) year = collect_commit_counts dates year) ∧
    collect_commit_counts [] year = [] :=
  ⟨collect_commit_counts_sum dates year,
    collect_commit_counts_other dates year d, rfl⟩

/-- C8 witness: two 1970 dates and one 2021 date, counted for 2021; appending another
1970 date changes nothing. -/
theorem claim_C8_witness :
    sumVals (collect_commit_counts [0, 1, 18628] 2021) =
      ([0, 1, 18628].filter (fun x => yearOf x = 2021)).length ∧
    collect_commit_counts ([0, 1, 18628] ++ [3]) 2021 =
      collect_commit_counts [0, 1, 18628] 2021 :=
  ⟨(claim_C8 [0, 1, 18628] 2021 3).1,
    (claim_C8 [0, 1, 18628] 2021 3).2.1 (by decide)⟩

/-- C9: every week row of the full-year grid contains at least one in-year slot, so no
row's dominant-month tag is the 0 sentinel; in particular the first row contains
Jan 1 (in the column of Jan 1's weekday) and the last row contains Dec 31. -/
theorem claim_C9 (Y : Int) :
    (∀ i : Nat, i < (yearGrid Y).1.length →
      ∃ j : Nat, j < 7 ∧ ∃ dd : Int,
        ((yearGrid Y).1.getD i []).getD j none = some dd ∧
        janFirst Y ≤ dd ∧ dd ≤ decLast Y) ∧
    (∀ i : Nat, i < (yearGrid Y).2.length → (yearGrid Y).2.getD i 0 ≠ 0) ∧
    ((yearGrid Y).1.getD 0 []).getD (weekday (janFirst Y)).toNat none =
      some (janFirst Y) ∧
    ((yearGrid Y).1.getD ((yearGrid Y).1.length - 1) []).getD
      (weekday (decLast Y)).toNat none = some (decLast Y) := by
  have hb := year_bounds Y
  have hlb := yearGrid_length_bounds Y
  have hlen := yearGrid_length Y
  have hleneq := yearGrid_len_eq Y
  refine ⟨?_, ?_, ?_, ?_⟩
  · intro i hi
    have hws := yearGrid_week_start_bounds Y i hi
    set ws := aStart Y + 7 * (i : Int) with hwsdef
    set f := max ws (janFirst Y) with hfdef
    have hf1 : ws ≤ f := le_max_left _ _
    have hf2 : janFirst Y ≤ f := le_max_right _ _
    have hf3 : f ≤ ws + 6 := by
      apply max_le <;> omega
    have hf4 : f ≤ decLast Y := by
      apply max_le <;> omega
    refine ⟨(f - ws).toNat, by omega, f, ?_, hf2, hf4⟩
    rw [yearGrid_row Y i hi, buildWeek_slot 7 _ _ _ 0 _ (by omega)]
    have harg : ws + ((f - ws).toNat : Int) = f := by omega
    rw [harg, if_pos ⟨hf2, hf4⟩]
  · intro i hi
    have := yearGrid_wm_pos Y i hi
    omega
  · have h0 : (0 : Nat) < (yearGrid Y).1.length := by omega
    rw [yearGrid_row Y 0 h0, buildWeek_slot 7 _ _ _ 0 _ (by
      have := weekday_lt (janFirst Y)
      have := weekday_nonneg (janFirst Y)
      omega)]
    have harg : aStart Y + 7 * ((0 : Nat) : Int) + ((weekday (janFirst Y)).toNat : Int) =
        janFirst Y := by
      have := weekday_nonneg (janFirst Y)
      unfold aStart at *
      push_cast
      omega
    rw [harg, if_pos ⟨le_refl _, by omega⟩]
  · have hL : (yearGrid Y).1.length - 1 < (yearGrid Y).1.length := by omega
    rw [yearGrid_row Y _ hL, buildWeek_slot 7 _ _ _ 0 _ (by
      have := weekday_lt (decLast Y)
      have := weekday_nonneg (decLast Y)
      omega)]
    have harg : aStart Y + 7 * (((yearGrid Y).1.length - 1 : Nat) : Int) +
        ((weekday (decLast Y)).toNat : Int) = decLast Y := by
      have hwd0 := weekday_nonneg (decLast Y)
      have hwd1 := weekday_lt (decLast Y)
      have hcast : (((yearGrid Y).1.length - 1 : Nat) : Int) =
          ((yearGrid Y).1.length : Int) - 1 := by omega
      rw [hcast, hlen]
      unfold aStart aEnd at *
      omega
    rw [harg, if_pos ⟨by omega, le_refl _⟩]

/-- C9 witness at year 2021: the first row's in-year slot and the nonzero tag of row 0. -/
theorem claim_C9_witness :
    (∃ j : Nat, j < 7 ∧ ∃ dd : Int,
      ((yearGrid 2021).1.getD 0 []).getD j none = some dd ∧
      janFirst 2021 ≤ dd ∧ dd ≤ decLast 2021) ∧
    (yearGrid 2021).2.getD 0 0 ≠ 0 :=
  ⟨(claim_C9 2021).1 0 (by decide), (claim_C9 2021).2.1 0 (by decide)⟩

/-- C10: `organize_weeks` always returns a weeks list and a week-months list of equal
length (one month tag appended per week row), so the renderer's paired accesses at
`i` and `i + 1` for `i < len(weeks) - 1` are in bounds on both lists. -/
theorem claim_C10 (adjusted_start_date adjusted_end_date start_date end_date : Int) :
    (organize_weeks adjusted_start_date adjusted_end_date start_date end_date).1.length =
      (organize_weeks adjusted_start_date adjusted_end_date start_date end_date).2.length ∧
    (∀ i : Nat,
      i < (organize_weeks adjusted_start_date adjusted_end_date start_date end_date).1.length - 1 →
      i + 1 <
        (organize_weeks adjusted_start_date adjusted_end_date start_date end_date).2.length) := by
  unfold organize_weeks
  have h := organizeLoop_len_eq (adjusted_end_date + 1 - adjusted_start_date).toNat
    adjusted_start_date adjusted_end_date start_date end_date
  exact ⟨h, fun i hi => by omega⟩

/-- C10 witness on a concrete 4-week range. -/
theorem claim_C10_witness :
    (organize_weeks 3 30 3 30).1.length = (organize_weeks 3 30 3 30).2.length ∧
    0 + 1 < (organize_weeks 3 30 3 30).2.length :=
  ⟨(claim_C10 3 30 3 30).1, (claim_C10 3 30 3 30).2 0 (by decide)⟩
